import Mathlib

/-!
Verification of the fastwalk disk-order file walker (fastwalk.c) against its
natural-language specification.  The definitions below are a shallow
embedding of the C source: the entry and extent stores become Lean lists,
the recursive directory walker and the DT_UNKNOWN repair loop become
fuel-indexed functions over an abstract filesystem, qsort becomes an
insertion sort driven by the exact (truncating) C comparators, and the LRU
file-descriptor pool becomes explicit state passing.
-/

namespace Fastwalk

/-! ## Data model (fastwalk.c lines 50-78) -/

/-- Directory-entry type as advertised by readdir's d_type field. -/
inductive DType
  | reg
  | dir
  | lnk
  | fifo
  | chr
  | blk
  | sock
  | unknown
deriving DecidableEq, Repr

/-- Actual kind of a filesystem object, as reported by stat's mode bits. -/
inductive FsKind
  | reg
  | dir
  | lnk
  | fifo
  | other
deriving DecidableEq, Repr

/-- struct entry (fastwalk.c line 50): one record of the entry store.
getentry zeroes the record, so disk and numextents start at 0.  The C
source overlays the fd back-pointer and the disk hint in a union; the two
are live in disjoint passes, so the model keeps only the disk hint here and
tracks fd bindings inside the pool state. -/
structure Entry where
  name : String
  ino : Nat
  dev : Nat
  type : DType
  disk : Nat
  numextents : Nat
deriving DecidableEq, Repr

/-- struct extent (fastwalk.c line 67).  The C source stores a raw pointer
to the owning entry; the model stores the entry's index in the entry store
as it is ordered at extent-registration time. -/
structure Extent where
  disk : Nat
  offset : Nat
  len : Nat
  entry : Nat
deriving DecidableEq, Repr

/-- One readdir result: simple name, inode, advertised d_type. -/
structure Dirent where
  dName : String
  dIno : Nat
  dType : DType
deriving DecidableEq, Repr

/-- Abstract filesystem.  openDir models open(O_RDONLY|O_DIRECTORY) plus
fstat plus the readdir stream: on success it yields the directory's device
id and its entries in stream order; none models an open or fstat failure
(the walker reports and returns without appending, fastwalk.c lines
145-153).  stat models stat(2) on a path: the object's kind on success. -/
structure Fsys where
  openDir : String → Option (Nat × List Dirent)
  stat : String → Option FsKind

/-! ## C arithmetic: the comparators (fastwalk.c lines 193-212)

The comparators compute a difference of 64-bit unsigned fields and return
it as a C int: the u64 subtraction wraps modulo 2^64 and the conversion to
int keeps the low 32 bits, reinterpreted as two's complement (the behavior
of every Linux target of this source). -/

/-- Wrapping 64-bit unsigned subtraction. -/
def u64sub (a b : Nat) : Nat :=
  (a % 18446744073709551616 + 18446744073709551616 - b % 18446744073709551616) %
    18446744073709551616

/-- Conversion of an unsigned value to a 32-bit two's-complement int. -/
def toInt32 (v : Nat) : Int :=
  let r := v % 4294967296
  if r < 2147483648 then (r : Int) else (r : Int) - 4294967296

/-- cmp_entry_ino (fastwalk.c line 193): return a->ino - b->ino as int. -/
def cmp_entry_ino (a b : Entry) : Int :=
  toInt32 (u64sub a.ino b.ino)

/-- cmp_entry_disk (fastwalk.c line 200): return a->disk - b->disk as int. -/
def cmp_entry_disk (a b : Entry) : Int :=
  toInt32 (u64sub a.disk b.disk)

/-- cmp_extent (fastwalk.c line 207): return a->disk - b->disk as int. -/
def cmp_extent (a b : Extent) : Int :=
  toInt32 (u64sub a.disk b.disk)

/-- Insert x into l, placing x before the first element y with
cmp x y ≤ 0: one comparison-sort refinement of qsort, faithful to the
comparator contract (negative = before, positive = after). -/
def insertCmp (cmp : α → α → Int) (x : α) : List α → List α
  | [] => [x]
  | y :: ys => if cmp x y ≤ 0 then x :: y :: ys else y :: insertCmp cmp x ys

/-- qsort modelled as insertion sort over the given comparator. -/
def sortCmp (cmp : α → α → Int) : List α → List α
  | [] => []
  | x :: xs => insertCmp cmp x (sortCmp cmp xs)

/-- sort_inodes (fastwalk.c line 214). -/
def sort_inodes (es : List Entry) : List Entry :=
  sortCmp cmp_entry_ino es

/-- sort_extents (fastwalk.c line 229). -/
def sort_extents (xs : List Extent) : List Extent :=
  sortCmp cmp_extent xs

/-! ## Tree Walker (fastwalk.c lines 129-191) -/

/-- doskip (fastwalk.c line 129): exact match of the simple name against
the skip list. -/
def doskip (name : String) (skip : List String) : Bool :=
  skip.contains name

/-- The readdir loop body of walk (fastwalk.c lines 160-187), abstracted
over the recursive call: for each directory entry, build the joined path,
drop it if skipped, recurse if its advertised type is DT_DIR, otherwise
append an Entry with the advertised type and zeroed disk hint and extent
count, flagging found_unknown when the advertised type is DT_UNKNOWN. -/
def walkDents (rec : String → List Entry → Option (List Entry × Bool))
    (dir : String) (dev : Nat) (skip : List String) :
    List Dirent → List Entry → Bool → Option (List Entry × Bool)
  | [], st, fu => some (st, fu)
  | de :: rest, st, fu =>
    if doskip de.dName skip then
      walkDents rec dir dev skip rest st fu
    else if de.dType = DType.dir then
      match rec (dir ++ "/" ++ de.dName) st with
      | none => none
      | some (st', fu') => walkDents rec dir dev skip rest st' (fu || fu')
    else
      walkDents rec dir dev skip rest
        (st ++ [⟨dir ++ "/" ++ de.dName, de.dIno, dev, de.dType, 0, 0⟩])
        (fu || (de.dType == DType.unknown))

/-- walk (fastwalk.c line 140).  Fuel bounds the recursion depth (the C
walker recurses on the real directory tree); none means the fuel ran out.
An open or fstat failure on dir reports the path and returns
found_unknown = false with nothing appended. -/
def walk : Nat → Fsys → String → List String → List Entry →
    Option (List Entry × Bool)
  | 0, _, _, _, _ => none
  | fuel + 1, fs, dir, skip, st =>
    match fs.openDir dir with
    | none => some (st, false)
    | some (dev, dents) =>
      walkDents (fun name st' => walk fuel fs name skip st') dir dev skip dents st
        false

/-! ## Type Resolver (fastwalk.c lines 234-264) -/

/-- State of handle_unknown's outer loop: the entry store, the start index
of the current window, and the found_unknown variable (set to 0 once before
the loop, fastwalk.c line 240, and never reset inside it). -/
structure HUState where
  entries : List Entry
  start : Nat
  foundUnknown : Bool
deriving DecidableEq, Repr

/-- The inner sweep of handle_unknown (fastwalk.c lines 244-256), iterating
i over [start, start+n): skip entries whose type is not DT_UNKNOWN; stat
the rest (a stat failure is reported and the entry left as is); when the
stat says directory, re-walk it and OR the walker's result into
found_unknown.  The entry's type field is never written. -/
def sweepGo (wf : Nat) (fs : Fsys) (skip : List String) :
    Nat → Nat → List Entry → Bool → Option (List Entry × Bool)
  | 0, _, entries, fu => some (entries, fu)
  | n + 1, i, entries, fu =>
    match entries[i]? with
    | none => sweepGo wf fs skip n (i + 1) entries fu
    | some e =>
      if e.type = DType.unknown then
        match fs.stat e.name with
        | none => sweepGo wf fs skip n (i + 1) entries fu
        | some k =>
          if k = FsKind.dir then
            match walk wf fs e.name skip entries with
            | none => none
            | some (entries', fu') => sweepGo wf fs skip n (i + 1) entries' (fu || fu')
          else
            sweepGo wf fs skip n (i + 1) entries fu
      else
        sweepGo wf fs skip n (i + 1) entries fu

/-- One full sweep over the window [start, maxI). -/
def sweep (wf : Nat) (fs : Fsys) (skip : List String) (entries : List Entry)
    (start maxI : Nat) (fu : Bool) : Option (List Entry × Bool) :=
  sweepGo wf fs skip (maxI - start) start entries fu

/-- The outer for(;;) loop of handle_unknown (fastwalk.c lines 242-263):
record max = numentries, sweep [start, max), break when found_unknown is
still false, otherwise sort by inode and continue with start = max.  lf is
loop fuel; none means the loop had not finished within lf iterations. -/
def huLoop (wf : Nat) (fs : Fsys) (skip : List String) :
    Nat → HUState → Option HUState
  | 0, _ => none
  | lf + 1, s =>
    match sweep wf fs skip s.entries s.start s.entries.length s.foundUnknown with
    | none => none
    | some (entries', fu') =>
      match fu' with
      | false => some ⟨entries', s.start, false⟩
      | true => huLoop wf fs skip lf ⟨sort_inodes entries', s.entries.length, true⟩

/-- handle_unknown (fastwalk.c line 234): the repair loop started with
start = 0 and found_unknown = 0. -/
def handle_unknown (wf : Nat) (fs : Fsys) (skip : List String) (lf : Nat)
    (entries : List Entry) : Option HUState :=
  huLoop wf fs skip lf ⟨entries, 0, false⟩

/-! ## Pipeline driver, first pass (fastwalk.c lines 446-487) -/

/-- The explicit-root loop of main (fastwalk.c lines 476-479): walk each
root, ORing every walker result into found_unknown. -/
def walkRoots (fuel : Nat) (fs : Fsys) (skip : List String) :
    List String → List Entry → Bool → Option (List Entry × Bool)
  | [], st, fu => some (st, fu)
  | r :: rest, st, fu =>
    match walk fuel fs r skip st with
    | none => none
    | some (st', fu') => walkRoots fuel fs skip rest st' (fu || fu')

/-- The first pass of main (fastwalk.c lines 472-480).  skipArgs are the
operator-supplied -p names; the skip set always starts with "." and "..".
With no roots the source calls walk(".") and DISCARDS its return value
(line 474), so found_unknown stays 0 for the default root. -/
def firstPass (fuel : Nat) (fs : Fsys) (skipArgs roots : List String) :
    Option (List Entry × Bool) :=
  match roots with
  | [] =>
    match walk fuel fs "." ("." :: ".." :: skipArgs) [] with
    | none => none
    | some (st, _) => some (st, false)
  | _ :: _ => walkRoots fuel fs ("." :: ".." :: skipArgs) roots [] false

/-- Entry store after the walk, inode sort and (conditional) repair loop,
together with whether the Type Resolver ran. -/
structure PipeResult where
  entries : List Entry
  resolverRan : Bool
deriving DecidableEq, Repr

/-- main up to the second pass (fastwalk.c lines 472-487): first pass, then
sort_inodes, then handle_unknown iff found_unknown was set. -/
def driverPass (fuel lf : Nat) (fs : Fsys) (skipArgs roots : List String) :
    Option PipeResult :=
  match firstPass fuel fs skipArgs roots with
  | none => none
  | some (st, fu) =>
    match fu with
    | false => some ⟨sort_inodes st, false⟩
    | true =>
      match handle_unknown fuel fs ("." :: ".." :: skipArgs) lf (sort_inodes st) with
      | none => none
      | some s' => some ⟨s'.entries, true⟩

/-! ## Extent Mapper (fastwalk.c lines 266-347) -/

/-- One extent as returned by the FIEMAP ioctl: physical start, logical
offset, byte length, and whether the kernel flagged its physical location
unknown (FIEMAP_EXTENT_UNKNOWN). -/
structure FExtent where
  physical : Nat
  logical : Nat
  length : Nat
  unknownFlag : Bool
deriving DecidableEq, Repr

/-- Outcome of the FIBMAP ioctl: the physical block on success, or a
failure whose errno may or may not be EPERM. -/
inductive FibmapRes
  | ok (block : Nat)
  | err (eperm : Bool)
deriving DecidableEq, Repr

/-- Kernel behavior for one file as seen by get_disk: the stat result
(file size on success), the FIEMAP result (the mapped extents on success,
none when the ioctl fails), and the FIBMAP result. -/
structure FileMapInfo where
  statSize : Option Nat
  fiemap : Option (List FExtent)
  fibmap : FibmapRes
deriving Repr

/-- What get_disk leaves behind for one entry: the extent records it
registered, the final value of the entry's numextents field (0 = never
written, as getentry zeroed it), and whether a per-path error was reported
through Perror (setting the run's error status). -/
structure MapResult where
  exts : List Extent
  numextents : Nat
  reported : Bool
deriving DecidableEq, Repr

/-- save_extents (fastwalk.c line 281): register
num = do_readahead ? fm_mapped_extents : 1 extents; an extent flagged
unknown is registered zeroed except for its entry back-reference; the
entry's numextents is set to num.  (When fm_mapped_extents = 0 and
readahead mode is off the C source reads one uninitialized extent record;
the model registers nothing in that case, and no claim depends on it.) -/
def save_extents (ra : Bool) (fexts : List FExtent) (eidx : Nat) :
    List Extent × Nat :=
  let num := if ra then fexts.length else 1
  ((fexts.take num).map fun fe =>
      if fe.unknownFlag then ⟨0, 0, 0, eidx⟩
      else ⟨fe.physical, fe.logical, fe.length, eidx⟩,
    num)

/-- get_disk (fastwalk.c line 302).  On stat failure: report, register
nothing.  On FIEMAP success: save_extents.  Otherwise try FIBMAP: when the
ioctl FAILS (with a once-only warning when errno is EPERM, and no report
otherwise) the source registers one synthetic extent whose fe_physical is
the file size and whose other fields stay zeroed; when the ioctl SUCCEEDS
the returned block is discarded and nothing at all is registered
(fastwalk.c lines 334-346: the fallback body is inside
if (ioctl(fd, FIBMAP, &disk) < 0)). -/
def get_disk (ra : Bool) (info : FileMapInfo) (eidx : Nat) : MapResult :=
  match info.statSize with
  | none => ⟨[], 0, true⟩
  | some size =>
    match info.fiemap with
    | some fexts =>
      let r := save_extents ra fexts eidx
      ⟨r.1, r.2, false⟩
    | none =>
      match info.fibmap with
      | .ok _block => ⟨[], 0, false⟩
      | .err _eperm =>
        let r := save_extents ra [⟨size, 0, 0, false⟩] eidx
        ⟨r.1, r.2, false⟩

/-! ## Print mode (fastwalk.c lines 219-226 and 528-533) -/

/-- Overwrite the disk field of the entry at index i (no-op when i is out
of range, as a C pointer write through a registered extent's back-reference
always hits a live entry). -/
def updateDisk : List Entry → Nat → Nat → List Entry
  | [], _, _ => []
  | e :: es, 0, d => { e with disk := d } :: es
  | e :: es, i + 1, d => e :: updateDisk es i d

/-- The copy loop of sort_entries_disk (fastwalk.c lines 223-224):
extents[i].entry->disk = extents[i].disk for every registered extent, in
registration order. -/
def copyDisks (entries : List Entry) (extents : List Extent) : List Entry :=
  extents.foldl (fun es ex => updateDisk es ex.entry ex.disk) entries

/-- sort_entries_disk (fastwalk.c line 220): copy each extent's physical
start into its entry's disk hint, then qsort the entries by
cmp_entry_disk. -/
def sort_entries_disk (entries : List Entry) (extents : List Extent) :
    List Entry :=
  sortCmp cmp_entry_disk (copyDisks entries extents)

/-- The print branch of main (fastwalk.c lines 528-533): sort by disk and
emit every entry's name, one per line, with no filtering by type. -/
def printPass (entries : List Entry) (extents : List Extent) : List String :=
  (sort_entries_disk entries extents).map Entry.name

/-! ## FD Pool (fastwalk.c lines 349-432)

A pool slot is its binding: some eid when the slot holds an open
descriptor for entry eid, none when it is free.  The LRU list holds slot
indices, most recently used first (list_add inserts at the head,
list_add_tail at the tail, and lru.prev — the victim — is the last
element). -/

structure FdPool where
  maxFd : Nat
  slots : List (Option Nat)
  lru : List Nat
deriving DecidableEq, Repr

/-- init_fd (fastwalk.c line 377): max_fd is the soft RLIMIT_NOFILE minus a
tenth of it; no slot is in use yet. -/
def init_fd (rlimCur : Nat) : FdPool :=
  ⟨rlimCur - rlimCur / 10, [], []⟩

/-- get_unused_fd (fastwalk.c line 394): hand out a fresh slot while fewer
than max_fd exist; otherwise unlink the LRU tail, closing its descriptor
first when it is bound (do_close_fd clears the binding).  none models the
assert on an empty LRU firing. -/
def get_unused_fd (p : FdPool) : Option (Nat × FdPool) :=
  if p.slots.length < p.maxFd then
    some (p.slots.length, { p with slots := p.slots ++ [none] })
  else
    match p.lru.getLast? with
    | none => none
    | some i =>
      match p.slots[i]? with
      | some (some _) =>
        some (i, { p with slots := p.slots.set i none, lru := p.lru.dropLast })
      | _ => some (i, { p with lru := p.lru.dropLast })

/-- The slot currently bound to entry eid, if any: the model of the
e->fd back-pointer (kept in lock-step with the slot's entry field by the
source, invariant I-F3). -/
def findSlot (p : FdPool) (eid : Nat) : Option Nat :=
  p.slots.findIdx? (fun s => s == some eid)

/-- get_fd (fastwalk.c line 407).  A cached slot is re-inserted at the MRU
head.  Otherwise a slot is obtained from get_unused_fd and the entry's file
is opened: on success the slot is bound and inserted at the MRU head; on
failure the slot is left unbound, linked at the LRU tail, and NULL is
returned.  The openOk argument stands for the open(2) outcome.  The outer
none models the assert in get_unused_fd. -/
def get_fd (p : FdPool) (eid : Nat) (openOk : Bool) :
    Option (Option Nat × FdPool) :=
  match findSlot p eid with
  | some i => some (some i, { p with lru := i :: p.lru.erase i })
  | none =>
    match get_unused_fd p with
    | none => none
    | some (i, p1) =>
      if openOk then
        some (some i, { p1 with slots := p1.slots.set i (some eid), lru := i :: p1.lru })
      else
        some (none, { p1 with lru := p1.lru ++ [i] })

/-- close_fd (fastwalk.c line 427): close the descriptor, clear the
binding, move the slot to the LRU tail.  none models the crash of
do_close_fd on a slot with no bound entry. -/
def close_fd (p : FdPool) (i : Nat) : Option FdPool :=
  match p.slots[i]? with
  | some (some _) =>
    some { p with slots := p.slots.set i none, lru := p.lru.erase i ++ [i] }
  | _ => none

/-- One pool operation: a get_fd for an entry (with the open outcome) or a
close_fd of a slot. -/
inductive FdOp
  | get (eid : Nat) (openOk : Bool)
  | close (slot : Nat)

/-- Apply one pool operation. -/
def fdStep (p : FdPool) : FdOp → Option FdPool
  | .get eid openOk =>
    match get_fd p eid openOk with
    | none => none
    | some (_, p') => some p'
  | .close i => close_fd p i

/-- Apply a sequence of pool operations. -/
def runOps (p : FdPool) : List FdOp → Option FdPool
  | [] => some p
  | op :: ops =>
    match fdStep p op with
    | none => none
    | some p' => runOps p' ops

/-- Number of open descriptors the pool holds: the slots bound to an
entry. -/
def openCount (p : FdPool) : Nat :=
  (p.slots.filter (fun s => s ≠ none)).length

/-! ## Readahead pass (fastwalk.c lines 507-527) -/

/-- State of the third pass: the pool, each entry's remaining numextents
(indexed like the entry store), the readahead calls issued so far as
(offset, length) pairs, and the run's error status. -/
structure RAState where
  pool : FdPool
  counts : List Nat
  calls : List (Nat × Nat)
  err : Bool
deriving DecidableEq, Repr

/-- One iteration of the third pass (fastwalk.c lines 513-527) on extent
ex.  get_fd failure (NULL) is reported and the extent skipped.  Otherwise
readahead(fd, offset, len) is issued; its return value is NOT inspected by
the source (line 524), so the raOk argument — the call's outcome — does not
influence the state.  Then the entry's numextents is decremented and the
slot closed when it reaches zero. -/
def raStep (openOkOf : Nat → Bool) (_raOk : Bool) (ex : Extent) (s : RAState) :
    Option RAState :=
  match get_fd s.pool ex.entry (openOkOf ex.entry) with
  | none => none
  | some (none, p') => some { s with pool := p', err := true }
  | some (some i, p') =>
    let calls := s.calls ++ [(ex.offset, ex.len)]
    let c := (s.counts[ex.entry]?).getD 0 - 1
    let counts := s.counts.set ex.entry c
    if c = 0 then
      match close_fd p' i with
      | none => none
      | some p'' => some ⟨p'', counts, calls, s.err⟩
    else
      some { s with pool := p', counts := counts, calls := calls }

/-- The third pass over the disk-sorted extent list.  raFail gives each
call's readahead outcome (true = the call failed), indexed by position k in
the pass. -/
def readaheadPass (openOkOf : Nat → Bool) (raFail : Nat → Bool) (k : Nat) :
    List Extent → RAState → Option RAState
  | [], s => some s
  | ex :: rest, s =>
    match raStep openOkOf (raFail k) ex s with
    | none => none
    | some s' => readaheadPass openOkOf raFail (k + 1) rest s'

/-! ## Concrete inputs used by the witnesses and counterexamples -/

/-- The skip set of a run with no -p arguments. -/
def skip01 : List String := [".", ".."]

/-- Tree for the repair-loop divergence: /t holds d, advertised DT_UNKNOWN
but actually a directory, which holds f, advertised DT_UNKNOWN but actually
a regular file. -/
def fsC1 : Fsys :=
  ⟨fun p =>
      if p = "/t" then some (7, [⟨"d", 5, DType.unknown⟩])
      else if p = "/t/d" then some (7, [⟨"f", 9, DType.unknown⟩])
      else none,
    fun p =>
      if p = "/t/d" then some FsKind.dir
      else if p = "/t/d/f" then some FsKind.reg
      else none⟩

/-- The entry the walker appends for /t/d (advertised DT_UNKNOWN). -/
def dE : Entry := ⟨"/t/d", 5, 7, DType.unknown, 0, 0⟩

/-- The entry the resolver's re-walk appends for /t/d/f. -/
def fE : Entry := ⟨"/t/d/f", 9, 7, DType.unknown, 0, 0⟩

/-- The state the repair loop reaches on fsC1 after two iterations:
found_unknown is stuck at true while the window [start, max) is empty. -/
def stuckC1 : HUState := ⟨[dE, fE], 2, true⟩

/-- Current directory whose single child x is advertised DT_UNKNOWN: the
default-root run of main. -/
def fsC2 : Fsys :=
  ⟨fun p => if p = "." then some (3, [⟨"x", 11, DType.unknown⟩]) else none,
    fun _ => none⟩

/-- The entry the default-root walk appends for ./x. -/
def xE : Entry := ⟨"./x", 11, 3, DType.unknown, 0, 0⟩

/-- Tree /u whose single child g is advertised DT_UNKNOWN and is actually a
regular file. -/
def fsC3 : Fsys :=
  ⟨fun p => if p = "/u" then some (4, [⟨"g", 21, DType.unknown⟩]) else none,
    fun p => if p = "/u/g" then some FsKind.reg else none⟩

/-- The entry the walker appends for /u/g. -/
def gE : Entry := ⟨"/u/g", 21, 4, DType.unknown, 0, 0⟩

/-- Tree /t whose child d is advertised DT_UNKNOWN but is a directory whose
own child f is advertised DT_REG: the repair loop terminates, but d stays
in the entry store. -/
def fsC8 : Fsys :=
  ⟨fun p =>
      if p = "/t" then some (7, [⟨"d", 5, DType.unknown⟩])
      else if p = "/t/d" then some (7, [⟨"f", 9, DType.reg⟩])
      else none,
    fun p =>
      if p = "/t/d" then some FsKind.dir
      else if p = "/t/d/f" then some FsKind.reg
      else none⟩

/-- The entry the resolver's re-walk appends for /t/d/f on fsC8. -/
def fE8 : Entry := ⟨"/t/d/f", 9, 7, DType.reg, 0, 0⟩

/-- Two regular-file entries for the disk-sort counterexample. -/
def e4a : Entry := ⟨"/t/a", 1, 7, DType.reg, 0, 1⟩

/-- Second entry for the disk-sort counterexample. -/
def e4b : Entry := ⟨"/t/b", 2, 7, DType.reg, 0, 1⟩

/-- Extents giving e4a the physical address 2^32 and e4b the address 1. -/
def exts4 : List Extent := [⟨4294967296, 0, 4096, 0⟩, ⟨1, 0, 4096, 1⟩]

/-- The extent list of the concrete readahead run: one extent of entry 0. -/
def raExts : List Extent := [⟨100, 0, 4096, 0⟩]

/-- Start state of the concrete readahead run: fresh pool from a soft limit
of 10, entry 0 mapped with one extent, no calls yet, no error. -/
def raS0 : RAState := ⟨init_fd 10, [1], [], false⟩

/-- End state of the concrete readahead run. -/
def raS1 : RAState := ⟨⟨9, [none], [0]⟩, [0], [(0, 4096)], false⟩

/-! ## Helper lemmas: the comparator sort permutes its input -/

theorem insertCmp_perm (cmp : α → α → Int) (x : α) :
    ∀ l : List α, (insertCmp cmp x l).Perm (x :: l) := by
  intro l
  induction l with
  | nil => simp [insertCmp]
  | cons y ys ih =>
    simp only [insertCmp]
    split
    · exact List.Perm.refl _
    · exact (ih.cons y).trans (List.Perm.swap x y ys)

theorem sortCmp_perm (cmp : α → α → Int) :
    ∀ l : List α, (sortCmp cmp l).Perm l := by
  intro l
  induction l with
  | nil => exact List.Perm.refl _
  | cons x xs ih => exact (insertCmp_perm cmp x (sortCmp cmp xs)).trans (ih.cons x)

theorem sort_inodes_perm (es : List Entry) : (sort_inodes es).Perm es :=
  sortCmp_perm cmp_entry_ino es

/-! ## Helper lemmas: the walker only appends, and never appends an entry
whose advertised type is DT_DIR -/

theorem walkDents_mem {rec : String → List Entry → Option (List Entry × Bool)}
    (hrec : ∀ name st st' fu', rec name st = some (st', fu') → ∀ e ∈ st, e ∈ st')
    (dir : String) (dev : Nat) (skip : List String) :
    ∀ (dents : List Dirent) (st : List Entry) (fu : Bool) (st' : List Entry)
      (fu' : Bool), walkDents rec dir dev skip dents st fu = some (st', fu') →
      ∀ e ∈ st, e ∈ st' := by
  intro dents
  induction dents with
  | nil =>
    intro st fu st' fu' h e he
    simp only [walkDents, Option.some.injEq, Prod.mk.injEq] at h
    exact h.1 ▸ he
  | cons de rest ih =>
    intro st fu st' fu' h e he
    simp only [walkDents] at h
    by_cases hs : doskip de.dName skip
    · simp only [hs, if_true] at h
      exact ih st fu st' fu' h e he
    · simp only [hs, if_false] at h
      by_cases hd : de.dType = DType.dir
      · simp only [hd, if_true] at h
        cases hrc : rec (dir ++ "/" ++ de.dName) st with
        | none => simp [hrc] at h
        | some p =>
          simp only [hrc] at h
          exact ih p.1 _ st' fu' h e (hrec _ _ _ _ hrc e he)
      · simp only [hd, if_false] at h
        exact ih _ _ st' fu' h e (List.mem_append_left _ he)

theorem walk_mem :
    ∀ (fuel : Nat) (fs : Fsys) (dir : String) (skip : List String)
      (st st' : List Entry) (fu' : Bool),
      walk fuel fs dir skip st = some (st', fu') → ∀ e ∈ st, e ∈ st' := by
  intro fuel
  induction fuel with
  | zero => intro fs dir skip st st' fu' h; simp [walk] at h
  | succ n ih =>
    intro fs dir skip st st' fu' h e he
    simp only [walk] at h
    cases ho : fs.openDir dir with
    | none =>
      simp only [ho, Option.some.injEq, Prod.mk.injEq] at h
      exact h.1 ▸ he
    | some p =>
      simp only [ho] at h
      exact walkDents_mem (fun name st st' fu' hh => ih fs name skip st st' fu' hh)
        dir p.1 skip p.2 st false st' fu' h e he

theorem walkDents_nondir {rec : String → List Entry → Option (List Entry × Bool)}
    (hrec : ∀ name st st' fu', rec name st = some (st', fu') →
      (∀ e ∈ st, e.type ≠ DType.dir) → ∀ e ∈ st', e.type ≠ DType.dir)
    (dir : String) (dev : Nat) (skip : List String) :
    ∀ (dents : List Dirent) (st : List Entry) (fu : Bool) (st' : List Entry)
      (fu' : Bool), walkDents rec dir dev skip dents st fu = some (st', fu') →
      (∀ e ∈ st, e.type ≠ DType.dir) → ∀ e ∈ st', e.type ≠ DType.dir := by
  intro dents
  induction dents with
  | nil =>
    intro st fu st' fu' h hst e he
    simp only [walkDents, Option.some.injEq, Prod.mk.injEq] at h
    exact hst e (h.1 ▸ he)
  | cons de rest ih =>
    intro st fu st' fu' h hst e he
    simp only [walkDents] at h
    by_cases hs : doskip de.dName skip
    · simp only [hs, if_true] at h
      exact ih st fu st' fu' h hst e he
    · simp only [hs, if_false] at h
      by_cases hd : de.dType = DType.dir
      · simp only [hd, if_true] at h
        cases hrc : rec (dir ++ "/" ++ de.dName) st with
        | none => simp [hrc] at h
        | some p =>
          simp only [hrc] at h
          exact ih p.1 _ st' fu' h (hrec _ _ _ _ hrc hst) e he
      · simp only [hd, if_false] at h
        refine ih _ _ st' fu' h ?_ e he
        intro e' he'
        rcases List.mem_append.mp he' with h1 | h2
        · exact hst e' h1
        · have : e' = (⟨dir ++ "/" ++ de.dName, de.dIno, dev, de.dType, 0, 0⟩ : Entry) :=
            List.mem_singleton.mp h2
          rw [this]
          exact hd

theorem walk_nondir :
    ∀ (fuel : Nat) (fs : Fsys) (dir : String) (skip : List String)
      (st st' : List Entry) (fu' : Bool),
      walk fuel fs dir skip st = some (st', fu') →
      (∀ e ∈ st, e.type ≠ DType.dir) → ∀ e ∈ st', e.type ≠ DType.dir := by
  intro fuel
  induction fuel with
  | zero => intro fs dir skip st st' fu' h; simp [walk] at h
  | succ n ih =>
    intro fs dir skip st st' fu' h hst e he
    simp only [walk] at h
    cases ho : fs.openDir dir with
    | none =>
      simp only [ho, Option.some.injEq, Prod.mk.injEq] at h
      exact hst e (h.1 ▸ he)
    | some p =>
      simp only [ho] at h
      exact walkDents_nondir (fun name st st' fu' hh => ih fs name skip st st' fu' hh)
        dir p.1 skip p.2 st false st' fu' h hst e he

theorem walkRoots_nondir :
    ∀ (fuel : Nat) (fs : Fsys) (skip roots : List String) (st st' : List Entry)
      (fu fu' : Bool), walkRoots fuel fs skip roots st fu = some (st', fu') →
      (∀ e ∈ st, e.type ≠ DType.dir) → ∀ e ∈ st', e.type ≠ DType.dir := by
  intro fuel fs skip roots
  induction roots with
  | nil =>
    intro st st' fu fu' h hst e he
    simp only [walkRoots, Option.some.injEq, Prod.mk.injEq] at h
    exact hst e (h.1 ▸ he)
  | cons r rest ih =>
    intro st st' fu fu' h hst e he
    simp only [walkRoots] at h
    cases hw : walk fuel fs r skip st with
    | none => simp [hw] at h
    | some p =>
      simp only [hw] at h
      exact ih p.1 st' _ fu' h (walk_nondir fuel fs r skip st p.1 p.2 hw hst) e he

/-! ## Helper lemmas: the resolver sweep only appends -/

theorem sweepGo_mem (wf : Nat) (fs : Fsys) (skip : List String) :
    ∀ (n i : Nat) (entries : List Entry) (fu : Bool) (entries' : List Entry)
      (fu' : Bool), sweepGo wf fs skip n i entries fu = some (entries', fu') →
      ∀ e ∈ entries, e ∈ entries' := by
  intro n
  induction n with
  | zero =>
    intro i entries fu entries' fu' h e he
    simp only [sweepGo, Option.some.injEq, Prod.mk.injEq] at h
    exact h.1 ▸ he
  | succ m ih =>
    intro i entries fu entries' fu' h e he
    simp only [sweepGo] at h
    cases hg : entries[i]? with
    | none =>
      simp only [hg] at h
      exact ih (i + 1) entries fu entries' fu' h e he
    | some ec =>
      simp only [hg] at h
      by_cases ht : ec.type = DType.unknown
      · simp only [ht, if_true] at h
        cases hstat : fs.stat ec.name with
        | none =>
          simp only [hstat] at h
          exact ih (i + 1) entries fu entries' fu' h e he
        | some k =>
          simp only [hstat] at h
          by_cases hk : k = FsKind.dir
          · simp only [hk, if_true] at h
            cases hw : walk wf fs ec.name skip entries with
            | none => simp [hw] at h
            | some p =>
              simp only [hw] at h
              exact ih (i + 1) p.1 _ entries' fu' h e
                (walk_mem wf fs ec.name skip entries p.1 p.2 hw e he)
          · simp only [hk, if_false] at h
            exact ih (i + 1) entries fu entries' fu' h e he
      · simp only [ht, if_false] at h
        exact ih (i + 1) entries fu entries' fu' h e he

theorem sweepGo_nondir (wf : Nat) (fs : Fsys) (skip : List String) :
    ∀ (n i : Nat) (entries : List Entry) (fu : Bool) (entries' : List Entry)
      (fu' : Bool), sweepGo wf fs skip n i entries fu = some (entries', fu') →
      (∀ e ∈ entries, e.type ≠ DType.dir) → ∀ e ∈ entries', e.type ≠ DType.dir := by
  intro n
  induction n with
  | zero =>
    intro i entries fu entries' fu' h hst e he
    simp only [sweepGo, Option.some.injEq, Prod.mk.injEq] at h
    exact hst e (h.1 ▸ he)
  | succ m ih =>
    intro i entries fu entries' fu' h hst e he
    simp only [sweepGo] at h
    cases hg : entries[i]? with
    | none =>
      simp only [hg] at h
      exact ih (i + 1) entries fu entries' fu' h hst e he
    | some ec =>
      simp only [hg] at h
      by_cases ht : ec.type = DType.unknown
      · simp only [ht, if_true] at h
        cases hstat : fs.stat ec.name with
        | none =>
          simp only [hstat] at h
          exact ih (i + 1) entries fu entries' fu' h hst e he
        | some k =>
          simp only [hstat] at h
          by_cases hk : k = FsKind.dir
          · simp only [hk, if_true] at h
            cases hw : walk wf fs ec.name skip entries with
            | none => simp [hw] at h
            | some p =>
              simp only [hw] at h
              exact ih (i + 1) p.1 _ entries' fu' h
                (walk_nondir wf fs ec.name skip entries p.1 p.2 hw hst) e he
          · simp only [hk, if_false] at h
            exact ih (i + 1) entries fu entries' fu' h hst e he
      · simp only [ht, if_false] at h
        exact ih (i + 1) entries fu entries' fu' h hst e he

/-! ## Helper lemmas: the resolver loop keeps every earlier entry -/

theorem huLoop_mem (wf : Nat) (fs : Fsys) (skip : List String) :
    ∀ (lf : Nat) (s s' : HUState), huLoop wf fs skip lf s = some s' →
      ∀ e ∈ s.entries, e ∈ s'.entries := by
  intro lf
  induction lf with
  | zero => intro s s' h; simp [huLoop] at h
  | succ n ih =>
    intro s s' h e he
    simp only [huLoop] at h
    cases hsw : sweep wf fs skip s.entries s.start s.entries.length s.foundUnknown with
    | none => simp [hsw] at h
    | some p =>
      simp only [hsw] at h
      have hmem : e ∈ p.1 :=
        sweepGo_mem wf fs skip (s.entries.length - s.start) s.start s.entries
          s.foundUnknown p.1 p.2 hsw e he
      cases hfu : p.2 with
      | false =>
        rw [hfu] at h
        simp only [Option.some.injEq] at h
        rw [← h]
        exact hmem
      | true =>
        rw [hfu] at h
        refine ih _ s' h e ?_
        exact ((sort_inodes_perm p.1).mem_iff).mpr hmem

theorem huLoop_nondir (wf : Nat) (fs : Fsys) (skip : List String) :
    ∀ (lf : Nat) (s s' : HUState), huLoop wf fs skip lf s = some s' →
      (∀ e ∈ s.entries, e.type ≠ DType.dir) →
      ∀ e ∈ s'.entries, e.type ≠ DType.dir := by
  intro lf
  induction lf with
  | zero => intro s s' h; simp [huLoop] at h
  | succ n ih =>
    intro s s' h hst e he
    simp only [huLoop] at h
    cases hsw : sweep wf fs skip s.entries s.start s.entries.length s.foundUnknown with
    | none => simp [hsw] at h
    | some p =>
      simp only [hsw] at h
      have hnd : ∀ e ∈ p.1, e.type ≠ DType.dir :=
        sweepGo_nondir wf fs skip (s.entries.length - s.start) s.start s.entries
          s.foundUnknown p.1 p.2 hsw hst
      cases hfu : p.2 with
      | false =>
        rw [hfu] at h
        simp only [Option.some.injEq] at h
        rw [← h] at he
        exact hnd e he
      | true =>
        rw [hfu] at h
        refine ih _ s' h ?_ e he
        intro e' he'
        exact hnd e' (((sort_inodes_perm p.1).mem_iff).mp he')

/-! ## Helper lemmas: copying disk hints touches neither names nor
entries no extent points at -/

theorem updateDisk_map_name :
    ∀ (es : List Entry) (i d : Nat),
      (updateDisk es i d).map Entry.name = es.map Entry.name := by
  intro es
  induction es with
  | nil => intro i d; rfl
  | cons e rest ih =>
    intro i d
    cases i with
    | zero => simp [updateDisk]
    | succ j => simp [updateDisk, ih]

theorem copyDisks_map_name :
    ∀ (exts : List Extent) (es : List Entry),
      (copyDisks es exts).map Entry.name = es.map Entry.name := by
  intro exts
  induction exts with
  | nil => intro es; rfl
  | cons ex rest ih =>
    intro es
    show (copyDisks (updateDisk es ex.entry ex.disk) rest).map Entry.name = _
    rw [ih, updateDisk_map_name]

theorem updateDisk_getElem_ne :
    ∀ (es : List Entry) (k i d : Nat), k ≠ i →
      (updateDisk es k d)[i]? = es[i]? := by
  intro es
  induction es with
  | nil => intro k i d _; rfl
  | cons e rest ih =>
    intro k i d hki
    cases k with
    | zero =>
      cases i with
      | zero => exact absurd rfl hki
      | succ j => simp [updateDisk]
    | succ m =>
      cases i with
      | zero => simp [updateDisk]
      | succ j =>
        simp only [updateDisk, List.getElem?_cons_succ]
        exact ih m j d (fun hmj => hki (by rw [hmj]))

theorem copyDisks_getElem_untouched :
    ∀ (exts : List Extent) (es : List Entry) (i : Nat),
      (∀ ex ∈ exts, ex.entry ≠ i) → (copyDisks es exts)[i]? = es[i]? := by
  intro exts
  induction exts with
  | nil => intro es i _; rfl
  | cons ex rest ih =>
    intro es i hne
    show (copyDisks (updateDisk es ex.entry ex.disk) rest)[i]? = _
    rw [ih _ i (fun e he => hne e (List.mem_cons_of_mem ex he)),
      updateDisk_getElem_ne es ex.entry i ex.disk (hne ex (List.mem_cons_self ex rest))]

/-! ## Helper lemmas: the FD Pool never grows past max_fd slots -/

/-- The pool's slot array never exceeds max_fd cells (fds is an array of
max_fd cells and free_fd indexes into it). -/
def PoolInv (p : FdPool) : Prop :=
  p.slots.length ≤ p.maxFd

theorem get_unused_fd_inv {p : FdPool} {i : Nat} {p' : FdPool}
    (h : get_unused_fd p = some (i, p')) :
    p'.slots.length ≤ max p.slots.length p.maxFd ∧ p'.maxFd = p.maxFd := by
  simp only [get_unused_fd] at h
  by_cases hlt : p.slots.length < p.maxFd
  · simp only [hlt, if_true, Option.some.injEq, Prod.mk.injEq] at h
    rw [← h.2]
    constructor
    · simp only [List.length_append, List.length_singleton]
      exact le_max_of_le_right hlt
    · rfl
  · simp only [hlt, if_false] at h
    cases hl : p.lru.getLast? with
    | none => simp [hl] at h
    | some j =>
      simp only [hl] at h
      cases hs : p.slots[j]? with
      | none =>
        simp only [hs, Option.some.injEq, Prod.mk.injEq] at h
        rw [← h.2]
        exact ⟨le_max_left _ _, rfl⟩
      | some b =>
        cases b with
        | none =>
          simp only [hs, Option.some.injEq, Prod.mk.injEq] at h
          rw [← h.2]
          exact ⟨le_max_left _ _, rfl⟩
        | some eid =>
          simp only [hs, Option.some.injEq, Prod.mk.injEq] at h
          rw [← h.2]
          constructor
          · simp only [List.length_set]
            exact le_max_left _ _
          · rfl

theorem get_fd_inv {p : FdPool} {eid : Nat} {openOk : Bool} {r : Option Nat}
    {p' : FdPool} (hp : PoolInv p) (h : get_fd p eid openOk = some (r, p')) :
    PoolInv p' ∧ p'.maxFd = p.maxFd := by
  simp only [get_fd] at h
  cases hf : findSlot p eid with
  | some i =>
    simp only [hf, Option.some.injEq, Prod.mk.injEq] at h
    rw [← h.2]
    exact ⟨hp, rfl⟩
  | none =>
    simp only [hf] at h
    cases hu : get_unused_fd p with
    | none => simp [hu] at h
    | some q =>
      simp only [hu] at h
      obtain ⟨hlen, hmax⟩ := get_unused_fd_inv hu
      by_cases hok : openOk = true
      · simp only [if_pos hok, Option.some.injEq, Prod.mk.injEq] at h
        rw [← h.2]
        refine ⟨?_, hmax⟩
        show (q.2.slots.set q.1 (some eid)).length ≤ q.2.maxFd
        rw [List.length_set, hmax]
        exact le_trans hlen (max_le hp le_rfl)
      · simp only [if_neg hok, Option.some.injEq, Prod.mk.injEq] at h
        rw [← h.2]
        refine ⟨?_, hmax⟩
        show q.2.slots.length ≤ q.2.maxFd
        rw [hmax]
        exact le_trans hlen (max_le hp le_rfl)

theorem close_fd_inv {p : FdPool} {i : Nat} {p' : FdPool} (hp : PoolInv p)
    (h : close_fd p i = some p') : PoolInv p' ∧ p'.maxFd = p.maxFd := by
  simp only [close_fd] at h
  cases hs : p.slots[i]? with
  | none => simp [hs] at h
  | some b =>
    cases b with
    | none => simp [hs] at h
    | some eid =>
      simp only [hs, Option.some.injEq] at h
      rw [← h]
      refine ⟨?_, rfl⟩
      show (p.slots.set i none).length ≤ p.maxFd
      rw [List.length_set]
      exact hp

theorem fdStep_inv {p : FdPool} {op : FdOp} {p' : FdPool} (hp : PoolInv p)
    (h : fdStep p op = some p') : PoolInv p' ∧ p'.maxFd = p.maxFd := by
  cases op with
  | get eid openOk =>
    simp only [fdStep] at h
    cases hg : get_fd p eid openOk with
    | none => simp [hg] at h
    | some q =>
      simp only [hg, Option.some.injEq] at h
      rw [← h]
      exact get_fd_inv hp hg
  | close i =>
    simp only [fdStep] at h
    exact close_fd_inv hp h

theorem runOps_inv :
    ∀ (ops : List FdOp) (p p' : FdPool), PoolInv p → runOps p ops = some p' →
      PoolInv p' ∧ p'.maxFd = p.maxFd := by
  intro ops
  induction ops with
  | nil =>
    intro p p' hp h
    simp only [runOps, Option.some.injEq] at h
    rw [← h]
    exact ⟨hp, rfl⟩
  | cons op rest ih =>
    intro p p' hp h
    simp only [runOps] at h
    cases hs : fdStep p op with
    | none => simp [hs] at h
    | some q =>
      simp only [hs] at h
      obtain ⟨hq, hqmax⟩ := fdStep_inv hp hs
      obtain ⟨hp', hmax'⟩ := ih q p' hq h
      exact ⟨hp', hmax'.trans hqmax⟩

theorem openCount_le_slots (p : FdPool) : openCount p ≤ p.slots.length :=
  List.length_filter_le _ p.slots

/-! ## Helper lemmas: the readahead loop with successful opens -/

theorem get_fd_true_some {p : FdPool} {eid : Nat} {r : Option Nat} {p' : FdPool}
    (h : get_fd p eid true = some (r, p')) : ∃ i, r = some i := by
  simp only [get_fd] at h
  cases hf : findSlot p eid with
  | some i =>
    simp only [hf, Option.some.injEq, Prod.mk.injEq] at h
    exact ⟨i, h.1.symm⟩
  | none =>
    simp only [hf] at h
    cases hu : get_unused_fd p with
    | none => simp [hu] at h
    | some q =>
      simp only [hu, if_true, Option.some.injEq, Prod.mk.injEq] at h
      exact ⟨q.1, h.1.symm⟩

theorem raStep_opens_ok {raOk : Bool} {ex : Extent} {s s' : RAState}
    (h : raStep (fun _ => true) raOk ex s = some s') :
    s'.err = s.err ∧ s'.calls.length = s.calls.length + 1 := by
  simp only [raStep] at h
  cases hg : get_fd s.pool ex.entry true with
  | none => simp [hg] at h
  | some q =>
    obtain ⟨i, hi⟩ := get_fd_true_some hg
    rw [hg] at h
    obtain ⟨q1, q2⟩ := q
    simp only at hi
    rw [hi] at h
    simp only at h
    by_cases hc : (s.counts[ex.entry]?).getD 0 - 1 = 0
    · simp only [hc, if_true] at h
      cases hcl : close_fd q2 i with
      | none => simp [hcl] at h
      | some p'' =>
        simp only [hcl, Option.some.injEq] at h
        rw [← h]
        exact ⟨rfl, by simp⟩
    · simp only [hc, if_false, Option.some.injEq] at h
      rw [← h]
      exact ⟨rfl, by simp⟩

theorem readaheadPass_opens_ok :
    ∀ (exts : List Extent) (raFail : Nat → Bool) (k : Nat) (s s' : RAState),
      readaheadPass (fun _ => true) raFail k exts s = some s' →
      s'.err = s.err ∧ s'.calls.length = s.calls.length + exts.length := by
  intro exts
  induction exts with
  | nil =>
    intro raFail k s s' h
    simp only [readaheadPass, Option.some.injEq] at h
    rw [← h]
    exact ⟨rfl, rfl⟩
  | cons ex rest ih =>
    intro raFail k s s' h
    simp only [readaheadPass] at h
    cases hs : raStep (fun _ => true) (raFail k) ex s with
    | none => simp [hs] at h
    | some s1 =>
      simp only [hs] at h
      obtain ⟨he1, hc1⟩ := raStep_opens_ok hs
      obtain ⟨he2, hc2⟩ := ih raFail (k + 1) s1 s' h
      refine ⟨he2.trans he1, ?_⟩
      rw [hc2, hc1]
      simp only [List.length_cons]
      omega

theorem readaheadPass_outcome_irrel :
    ∀ (exts : List Extent) (openOkOf : Nat → Bool) (raFail raFail2 : Nat → Bool)
      (k k2 : Nat) (s : RAState),
      readaheadPass openOkOf raFail k exts s = readaheadPass openOkOf raFail2 k2 exts s := by
  intro exts
  induction exts with
  | nil => intro openOkOf raFail raFail2 k k2 s; rfl
  | cons ex rest ih =>
    intro openOkOf raFail raFail2 k k2 s
    show (match raStep openOkOf (raFail k) ex s with
        | none => none
        | some s' => readaheadPass openOkOf raFail (k + 1) rest s') =
      (match raStep openOkOf (raFail2 k2) ex s with
        | none => none
        | some s' => readaheadPass openOkOf raFail2 (k2 + 1) rest s')
    cases hs : raStep openOkOf (raFail k) ex s with
    | none =>
      have : raStep openOkOf (raFail2 k2) ex s = none := hs
      rw [this]
    | some s1 =>
      have : raStep openOkOf (raFail2 k2) ex s = some s1 := hs
      rw [this]
      exact ih openOkOf raFail raFail2 (k + 1) (k2 + 1) s1

/-- Whether a list of disk hints is non-decreasing (the ordering guarantee
the spec states for the emitted sequence). -/
def nondecrB : List Nat → Bool
  | [] => true
  | [_] => true
  | a :: b :: rest => (a ≤ b : Bool) && nondecrB (b :: rest)

/-- The per-entry body of main's second pass (fastwalk.c lines 496-504)
for a DT_REG entry: open the file; on success run get_disk, on failure
report and leave the entry untouched. -/
def mapEntry (ra : Bool) (openOk : Bool) (info : FileMapInfo) (eidx : Nat) :
    MapResult :=
  if openOk then get_disk ra info eidx else ⟨[], 0, true⟩

/-! ## The claims -/

/-- The state the repair loop can never leave on fsC1: found_unknown is
true, the window is empty, and sorting changes nothing, so the loop never
meets its break condition whatever fuel it is given. -/
theorem huLoop_stuckC1 : ∀ n : Nat, huLoop 10 fsC1 skip01 n stuckC1 = none := by
  intro n
  induction n with
  | zero => rfl
  | succ m ih =>
    show huLoop 10 fsC1 skip01 m stuckC1 = none
    exact ih

/-- C1: the claim says the repair loop of handle_unknown terminates for
every input.  It does not: found_unknown (fastwalk.c line 240) is set once
before the for(;;) loop and never reset inside it, so as soon as one sweep
sets it — here the unknown-typed directory /t/d whose child /t/d/f is again
advertised unknown — the break at line 258 can never fire again and the
loop runs forever: for every loop fuel the embedded loop fails to reach its
exit. -/
theorem C1_resolver_loop_diverges (lf : Nat) :
    handle_unknown 10 fsC1 skip01 lf [dE] = none := by
  match lf with
  | 0 => rfl
  | 1 => rfl
  | n + 2 =>
    show huLoop 10 fsC1 skip01 n stuckC1 = none
    exact huLoop_stuckC1 n

/-- C2: the claim says the Type Resolver runs after the initial walk iff an
unknown-typed entry was appended, including for the default root ".".  In
the default-root branch main discards walk's return value (fastwalk.c line
474), so on a current directory with child x advertised DT_UNKNOWN the
store ends with an unknown-typed entry yet the resolver never runs
(resolverRan = false). -/
theorem C2_default_root_unknown_unresolved :
    driverPass 5 5 fsC2 [] [] = some ⟨[xE], false⟩ ∧ xE.type = DType.unknown :=
  ⟨by decide, rfl⟩

/-- C3 counterexample: on /u whose child g is advertised DT_UNKNOWN but is
a regular file whose stat succeeds, the resolver completes and the entry
STILL has type unknown — the claimed update of the type field from the stat
mode bits does not happen (fastwalk.c lines 247-255 never write
entries[i].type). -/
theorem C3_counterexample :
    handle_unknown 5 fsC3 skip01 5 [gE] = some ⟨[gE], 0, false⟩ ∧
    fsC3.stat gE.name = some FsKind.reg ∧ gE.type = DType.unknown :=
  ⟨by decide, by decide, rfl⟩

/-- C3 amended: the resolver never modifies an existing entry at all — the
stat result is used only to decide whether to re-walk a directory — so
every entry present before the repair loop, unknown-typed ones included, is
still present, unchanged, afterwards. -/
theorem C3_resolver_preserves_entries (wf : Nat) (fs : Fsys)
    (skip : List String) (lf : Nat) (entries : List Entry) (s' : HUState)
    (h : handle_unknown wf fs skip lf entries = some s') :
    ∀ e ∈ entries, e ∈ s'.entries :=
  huLoop_mem wf fs skip lf ⟨entries, 0, false⟩ s' h

/-- C3 witness: the preservation theorem applied to the concrete fsC3
run. -/
theorem C3_resolver_preserves_entries_witness :
    gE ∈ (HUState.mk [gE] 0 false).entries :=
  C3_resolver_preserves_entries 5 fsC3 skip01 5 [gE] ⟨[gE], 0, false⟩ (by decide)
    gE (List.mem_singleton.mpr rfl)

/-- C4: the claim says the disk sort yields a non-decreasing sequence of
u64 disk hints for every assignment of 64-bit addresses.  cmp_entry_disk
returns the u64 difference truncated to a 32-bit int (fastwalk.c line 204),
so with addresses 2^32 and 1 the comparator reports 2^32 < 1 (the
difference 2^32 - 1 truncates to -1) and the sorted output [2^32, 1] is
decreasing. -/
theorem C4_disk_sort_not_monotone :
    (sort_entries_disk [e4a, e4b] exts4).map Entry.disk = [4294967296, 1] ∧
    nondecrB ((sort_entries_disk [e4a, e4b] exts4).map Entry.disk) = false :=
  ⟨by decide, by decide⟩

/-- C5: the claim says that when FIEMAP is unsupported and FIBMAP succeeds,
one synthetic extent (disk = returned block, offset = 0, length = size)
is registered with extent-count 1.  The source only registers the synthetic
extent when the FIBMAP ioctl FAILS (the whole fallback body is inside
if (ioctl(fd, FIBMAP, &disk) < 0), fastwalk.c line 334): on success the
returned block (42 here) is discarded, nothing is registered and the
extent-count stays 0. -/
theorem C5_fibmap_success_registers_nothing :
    get_disk false ⟨some 4096, none, FibmapRes.ok 42⟩ 0 = ⟨[], 0, false⟩ := by
  decide

/-- C6 counterexample: when FIEMAP is unavailable and FIBMAP fails with an
errno other than EPERM, the claim says the failure is reported and no
extents are registered; the source registers the synthetic size-hint extent
unconditionally on FIBMAP failure and reports nothing (only the EPERM case
gets a once-only warning): extent-count becomes 1 and no error is
raised. -/
theorem C6_counterexample :
    (get_disk false ⟨some 4096, none, FibmapRes.err false⟩ 3).numextents = 1 ∧
    (get_disk false ⟨some 4096, none, FibmapRes.err false⟩ 3).reported = false :=
  ⟨by decide, by decide⟩

/-- C6 amended: an open failure and a stat failure are reported and leave
the entry with no extents and extent-count 0; but a FIBMAP failure — EPERM
or not — is not reported through the error channel and registers exactly
one synthetic extent with disk = size (and length 0, the fe_length field
stays zeroed), setting extent-count to 1. -/
theorem C6_open_stat_fail_vs_fibmap_fail (ra : Bool) (openOk : Bool)
    (info : FileMapInfo) (eidx : Nat) :
    (openOk = false → mapEntry ra openOk info eidx = ⟨[], 0, true⟩) ∧
    (info.statSize = none → get_disk ra info eidx = ⟨[], 0, true⟩) ∧
    (∀ size b, info.statSize = some size → info.fiemap = none →
      info.fibmap = FibmapRes.err b →
      get_disk ra info eidx = ⟨[⟨size, 0, 0, eidx⟩], 1, false⟩) := by
  refine ⟨?_, ?_, ?_⟩
  · intro h
    simp [mapEntry, h]
  · intro h
    simp [get_disk, h]
  · intro size b h1 h2 h3
    simp [get_disk, h1, h2, h3, save_extents]

/-- C6 witness: the amended behavior at concrete inputs — a failed open, a
failed stat, and a non-EPERM FIBMAP failure on a 4096-byte file. -/
theorem C6_open_stat_fail_vs_fibmap_fail_witness :
    mapEntry false false ⟨some 4096, none, FibmapRes.ok 0⟩ 0 = ⟨[], 0, true⟩ ∧
    get_disk false ⟨none, none, FibmapRes.ok 0⟩ 0 = ⟨[], 0, true⟩ ∧
    get_disk false ⟨some 4096, none, FibmapRes.err false⟩ 3 =
      ⟨[⟨4096, 0, 0, 3⟩], 1, false⟩ :=
  ⟨(C6_open_stat_fail_vs_fibmap_fail false false ⟨some 4096, none, FibmapRes.ok 0⟩ 0).1 rfl,
    (C6_open_stat_fail_vs_fibmap_fail false true ⟨none, none, FibmapRes.ok 0⟩ 0).2.1 rfl,
    (C6_open_stat_fail_vs_fibmap_fail false true ⟨some 4096, none, FibmapRes.err false⟩
      3).2.2 4096 false rfl rfl rfl⟩

/-- C7 counterexample: a run in which the only readahead call fails
(raFail answers true for it) ends with the error status still false —
nothing was reported — refuting the claim that a failed readahead sets the
run's error status. -/
theorem C7_counterexample :
    (readaheadPass (fun _ => true) (fun _ => true) 0 raExts raS0).map RAState.err =
      some false := by
  decide

/-- C7 amended: the source never inspects readahead's return value
(fastwalk.c line 524), so a failed readahead call is silently ignored: the
whole pass is independent of the per-call outcomes, and (with opens
succeeding) the error status is left unchanged while every extent still
gets its call. -/
theorem C7_readahead_errors_ignored (openOkOf raFail raFail2 : Nat → Bool)
    (k k2 : Nat) (exts : List Extent) (s s' : RAState)
    (hrun : readaheadPass (fun _ => true) raFail k exts s = some s') :
    readaheadPass openOkOf raFail k exts s =
      readaheadPass openOkOf raFail2 k2 exts s ∧
    s'.err = s.err ∧ s'.calls.length = s.calls.length + exts.length :=
  ⟨readaheadPass_outcome_irrel exts openOkOf raFail raFail2 k k2 s,
    (readaheadPass_opens_ok exts raFail k s s' hrun).1,
    (readaheadPass_opens_ok exts raFail k s s' hrun).2⟩

/-- C7 witness: the amended theorem at the concrete one-extent run whose
readahead call fails. -/
theorem C7_readahead_errors_ignored_witness :
    (readaheadPass (fun _ => true) (fun _ => true) 0 raExts raS0 =
      readaheadPass (fun _ => true) (fun _ => false) 7 raExts raS0) ∧
    raS1.err = raS0.err ∧ raS1.calls.length = raS0.calls.length + raExts.length :=
  C7_readahead_errors_ignored (fun _ => true) (fun _ => true) (fun _ => false) 0 7
    raExts raS0 raS1 (by decide)

/-- C8 counterexample: on fsC8 the child /t/d is advertised DT_UNKNOWN but
is a directory; the walker appends it (only advertised DT_DIR children are
traversed instead of appended) and the resolver walks it without removing
it, so after the driver pass the store holds an entry that is a directory
per the filesystem — refuting "no directory is ever added to the store". -/
theorem C8_counterexample :
    driverPass 5 5 fsC8 [] ["/t"] = some ⟨[dE, fE8], true⟩ ∧
    dE ∈ [dE, fE8] ∧ fsC8.stat dE.name = some FsKind.dir :=
  ⟨by decide, by decide, by decide⟩

/-- C8 amended: no entry whose ADVERTISED type is DT_DIR is ever added to
the store — such children are traversed, not emitted — but an entry
advertised DT_UNKNOWN that is actually a directory is appended and stays in
the store through the resolver. -/
theorem C8_no_advertised_dir_entries (fuel lf : Nat) (fs : Fsys)
    (skipArgs roots : List String) (r : PipeResult)
    (h : driverPass fuel lf fs skipArgs roots = some r) :
    ∀ e ∈ r.entries, e.type ≠ DType.dir := by
  have hst : ∀ (st : List Entry) (fu : Bool),
      firstPass fuel fs skipArgs roots = some (st, fu) →
      ∀ e ∈ st, e.type ≠ DType.dir := by
    intro st fu hfp
    cases roots with
    | nil =>
      simp only [firstPass] at hfp
      cases hw : walk fuel fs "." ("." :: ".." :: skipArgs) [] with
      | none => rw [hw] at hfp; simp at hfp
      | some p =>
        rw [hw] at hfp
        simp only [Option.some.injEq, Prod.mk.injEq] at hfp
        rw [← hfp.1]
        exact walk_nondir fuel fs "." ("." :: ".." :: skipArgs) [] p.1 p.2 hw
          (by simp)
    | cons root rest =>
      simp only [firstPass] at hfp
      exact walkRoots_nondir fuel fs ("." :: ".." :: skipArgs) (root :: rest) []
        st false fu hfp (by simp)
  simp only [driverPass] at h
  split at h
  · simp at h
  · rename_i st fu hfp
    have hbase := hst st fu hfp
    split at h
    · simp only [Option.some.injEq] at h
      rw [← h]
      intro e he
      exact hbase e ((sort_inodes_perm st).mem_iff.mp he)
    · split at h
      · simp at h
      · rename_i s' hhu
        simp only [Option.some.injEq] at h
        rw [← h]
        intro e he
        exact huLoop_nondir fuel fs ("." :: ".." :: skipArgs) lf
          ⟨sort_inodes st, 0, false⟩ s' hhu
          (fun e' he' => hbase e' ((sort_inodes_perm st).mem_iff.mp he')) e he

/-- C8 witness: the amended theorem applied to the fsC8 run, at the entry
appended for the unknown-advertised directory /t/d. -/
theorem C8_no_advertised_dir_entries_witness : dE.type ≠ DType.dir :=
  C8_no_advertised_dir_entries 5 5 fsC8 [] ["/t"] ⟨[dE, fE8], true⟩ (by decide)
    dE (by decide)

/-- C9: the number of open descriptors the FD Pool holds never exceeds
max_fd = soft RLIMIT_NOFILE minus a tenth of it: every sequence of get_fd
and close_fd operations from the freshly set-up pool keeps the bound,
because slots are handed out only while fewer than max_fd exist and every
further acquisition evicts (closing first) instead of growing. -/
theorem C9_fd_pool_bound (rl : Nat) (ops : List FdOp) (p' : FdPool)
    (h : runOps (init_fd rl) ops = some p') :
    openCount p' ≤ rl - rl / 10 := by
  obtain ⟨hinv, hmax⟩ := runOps_inv ops (init_fd rl) p' (Nat.zero_le _) h
  calc openCount p' ≤ p'.slots.length := openCount_le_slots p'
    _ ≤ p'.maxFd := hinv
    _ = rl - rl / 10 := by rw [hmax]; rfl

/-- C9 witness: the bound at a concrete run from a soft limit of 10 (one
get, one close). -/
theorem C9_fd_pool_bound_witness :
    openCount ⟨9, [none], [0]⟩ ≤ 10 - 10 / 10 :=
  C9_fd_pool_bound 10 [FdOp.get 0 true, FdOp.close 0] ⟨9, [none], [0]⟩ (by decide)

/-- C10: in print mode every entry of the store is emitted, whatever its
type: the printed names are a permutation of all entry names (the print
loop at fastwalk.c lines 531-532 filters nothing), and an entry no extent
points at is left untouched by the disk-hint copy, keeping its zeroed disk
hint. -/
theorem C10_print_emits_all_entries (entries : List Entry)
    (extents : List Extent) :
    (printPass entries extents).Perm (entries.map Entry.name) ∧
    ∀ i : Nat, (∀ ex ∈ extents, ex.entry ≠ i) →
      (copyDisks entries extents)[i]? = entries[i]? := by
  constructor
  · have h1 : ((sortCmp cmp_entry_disk (copyDisks entries extents)).map
        Entry.name).Perm ((copyDisks entries extents).map Entry.name) :=
      (sortCmp_perm cmp_entry_disk _).map Entry.name
    rw [copyDisks_map_name] at h1
    exact h1
  · intro i hi
    exact copyDisks_getElem_untouched extents entries i hi

/-- Entries of the print-mode witness: a symlink, a fifo and a
still-unknown entry, only the first of which has an extent. -/
def entsW : List Entry :=
  [⟨"/w/s", 1, 7, DType.lnk, 0, 0⟩, ⟨"/w/p", 2, 7, DType.fifo, 0, 0⟩,
    ⟨"/w/u", 3, 7, DType.unknown, 0, 0⟩]

/-- The one extent of the print-mode witness, owned by entry 0. -/
def extsW : List Extent := [⟨500, 0, 10, 0⟩]

/-- C10 witness: the print-mode theorem at the concrete mixed-type store;
the unknown-typed entry at index 2 is untouched by the disk-hint copy. -/
theorem C10_print_emits_all_entries_witness :
    (printPass entsW extsW).Perm (entsW.map Entry.name) ∧
    (copyDisks entsW extsW)[2]? = entsW[2]? :=
  ⟨(C10_print_emits_all_entries entsW extsW).1,
    (C10_print_emits_all_entries entsW extsW).2 2 (by decide)⟩

end Fastwalk
